import Mathlib

/-!
Verification of the atomic-concentration tooling: a shallow embedding of the
repository's composition-resolution and concentration algebra
(materials.py, generate_materials.py, main.py) with machine-checked
statements about it.  Python floats are modelled as exact rationals (ℚ),
pandas NaN cells as `Option`, raised exceptions as `Except`/`Option`, and
Python dicts as association lists with unique keys.
-/

set_option maxRecDepth 1024

/-! ## Generic helpers -/

/-- Numeric value of a list of ASCII digit characters (how Python's
`int`/`float` read a digit string). -/
def digitsVal (l : List Char) : ℕ := l.foldl (fun n c => n * 10 + (c.toNat - 48)) 0

/-- Lookup in an association list modelling a Python dict
(`d[k]` read access; `none` when the key is absent). -/
def dictGet (xs : List (String × ℚ)) (k : String) : Option ℚ :=
  (xs.find? (fun p => p.1 == k)).map (fun p => p.2)

/-- `dictGet` with a default, modelling Python's `d.get(k, dflt)`. -/
def dictGetD (xs : List (String × ℚ)) (k : String) (dflt : ℚ) : ℚ :=
  (dictGet xs k).getD dflt

/-- Write access `d[k] = v` on an association list modelling a Python dict:
overwrite in place when the key exists (keeping its position, as CPython
dicts do), append otherwise. -/
def dictSet (xs : List (String × ℚ)) (k : String) (v : ℚ) : List (String × ℚ) :=
  if xs.any (fun p => p.1 == k) then
    xs.map (fun p => if p.1 == k then (k, v) else p)
  else
    xs ++ [(k, v)]

/-- Pointwise combination of two optional concentrations: union of the key
sets, values added where both are present. -/
def mergeOpt : Option ℚ → Option ℚ → Option ℚ
  | none, none => none
  | some x, none => some x
  | none, some y => some y
  | some x, some y => some (x + y)

/-- Python float formatting/parsing of a plain digit string or
`digits.digits` decimal string (the only shapes the formula and mixture
grammars can produce; Python's wider float grammar — signs, exponents,
infinities — is never reachable from them). -/
def pyFloat (l : List Char) : Option ℚ :=
  let intPart := l.takeWhile Char.isDigit
  let rest := l.drop intPart.length
  match rest with
  | [] => if intPart.isEmpty then none else some (digitsVal intPart)
  | c :: frac =>
    if c = '.' then
      if frac.all Char.isDigit ∧ (intPart ≠ [] ∨ frac ≠ []) then
        some ((digitsVal intPart : ℚ) + (digitsVal frac : ℚ) / (10 : ℚ) ^ frac.length)
      else none
    else none

/-- `float(fraction) if fraction else 1.0` — the conversion materials.py
applies to the quantity captured by its formula regex. -/
def pyFracVal (s : String) : Except String ℚ :=
  if s = "" then .ok 1
  else
    match pyFloat s.toList with
    | some q => .ok q
    | none => .error ("ValueError: could not convert string to float: " ++ s)

/-- Python's truthiness test for `name` fields (`None` and the empty string
are falsy). -/
def pyNameFalsy : Option String → Bool
  | none => true
  | some s => s = ""

/-- Python `str(...)` of an optional name (as interpolated in f-strings). -/
def pyNameStr : Option String → String
  | none => "None"
  | some s => s

/-! ## The reference isotope table -/

/-- One row of the reference isotope table
(`data/nist_isotopic_compositions.csv`), with NaN cells as `none`. -/
structure Row where
  element : String
  atomicNumber : ℕ
  massNumber : ℕ
  isotopeAtomicMass : Option ℚ
  elementAtomicWeight : Option ℚ
  isotopicComposition : Option ℚ

/-- Modelled from the spec: the reference isotope table is an external data
provider, absent from src/ (spec §1 puts loading it out of scope; §6 gives
its shape: rows keyed by element symbol with atomic number, mass number,
isotope atomic mass, element atomic weight and natural-abundance fraction,
possibly NaN for unstable-only rows).  The subset of NIST data needed by
the claims: hydrogen (both natural isotopes keyed "H", as required by the
spec's `H2O → trace 1002` property), oxygen, carbon, boron, and technetium
as an element whose rows all lack a natural abundance.  All numbers are the
published NIST values. -/
def nist : List Row :=
  [⟨"H", 1, 1, some (1007825/1000000), some (1008/1000), some (999885/1000000)⟩,
   ⟨"H", 1, 2, some (2014102/1000000), some (1008/1000), some (115/1000000)⟩,
   ⟨"O", 8, 16, some (15994915/1000000), some (15999/1000), some (99757/100000)⟩,
   ⟨"O", 8, 17, some (16999132/1000000), some (15999/1000), some (38/100000)⟩,
   ⟨"O", 8, 18, some (17999160/1000000), some (15999/1000), some (205/100000)⟩,
   ⟨"C", 6, 12, some 12, some (12011/1000), some (9893/10000)⟩,
   ⟨"C", 6, 13, some (13003355/1000000), some (12011/1000), some (107/10000)⟩,
   ⟨"B", 5, 10, some (10012937/1000000), some (1081/100), some (199/1000)⟩,
   ⟨"B", 5, 11, some (11009305/1000000), some (1081/100), some (801/1000)⟩,
   ⟨"Tc", 43, 97, some (96906367/1000000), none, none⟩,
   ⟨"Tc", 43, 98, some (97907212/1000000), none, none⟩,
   ⟨"Tc", 43, 99, some (98906251/1000000), none, none⟩]

/-! ## materials.py — Isotope and Element -/

/-- Avogadro's number in 1/(mol·g/cc), the constant materials.py fixes
(`self.AVOGADRO = 0.602214076`). -/
def AVOGADRO : ℚ := 602214076 / 1000000000

/-- Zero padding of a mass number to (at least) three digits, the Python
format spec `f"{int(mass_number):03}"`. -/
def pad3 (n : ℕ) : String :=
  let s := Nat.repr n
  if s.length < 3 then String.mk (List.replicate (3 - s.length) '0') ++ s else s

/-- MCNP isotope code: `str(int(atomic_number)) + f"{int(mass_number):03}"`
(materials.py `Isotope`, also generate_materials.py `get_isotope_code`). -/
def get_isotope_code (atomicNumber massNumber : ℕ) : String :=
  Nat.repr atomicNumber ++ pad3 massNumber

/-- materials.py `Isotope`: `concentration` starts as `None` and is filled
in by `Mixture.update_isotope_concentrations`. -/
structure Isotope where
  atomicNumber : ℕ
  massNumber : ℕ
  isotope_code : String
  atomicMass : ℚ
  atomicWeight : ℚ
  abundance : ℚ
  concentration : Option ℚ

/-- First maximal run of digits in a symbol —
`re.search(r"\d+", symbol)` in `Element._retrieve_composition`. -/
def firstDigitRun : List Char → Option (List Char)
  | [] => none
  | c :: rest =>
    if c.isDigit then some (c :: rest.takeWhile Char.isDigit) else firstDigitRun rest

/-- `re.sub(r"\d+", "", symbol)`: the symbol with every digit removed. -/
def removeDigits (l : List Char) : List Char := l.filter (fun c => ¬ c.isDigit)

/-- Python truthiness of the `mass_number` variable (`None` and `0` falsy). -/
def mnTruthy : Option ℕ → Bool
  | none => false
  | some n => n != 0

/-- materials.py `Element._retrieve_composition`.  Faithful to the source's
control flow: the `D`/`T` branch sets `mass_number` and `search_symbol = "H"`,
but the following `if match := re.search(...) ... else ...` then assigns
`search_symbol` again on BOTH of its branches, so the `"H"` value is
overwritten.  Rows are kept when an explicit mass number was given or the
isotopic composition is defined; abundance is forced to 1.0 exactly when a
(truthy) mass number was given.  An empty result set raises `ValueError`. -/
def retrieve_composition (table : List Row) (symbol : String) : Except String (List Isotope) :=
  let mn0 : Option ℕ := if symbol = "D" then some 2 else if symbol = "T" then some 3 else none
  let massNumber : Option ℕ :=
    match firstDigitRun symbol.toList with
    | some run => some (digitsVal run)
    | none => mn0
  let searchSymbol : String :=
    match firstDigitRun symbol.toList with
    | some _ => String.mk (removeDigits symbol.toList)
    | none => symbol
  let data := table.filter (fun r =>
    r.element == searchSymbol && (!mnTruthy massNumber || r.massNumber == (massNumber.getD 0)))
  if data.isEmpty then
    .error ("Element/Isotope not found: " ++ symbol)
  else
    .ok (data.filterMap (fun r =>
      if mnTruthy massNumber ∨ r.isotopicComposition.isSome then
        some { atomicNumber := r.atomicNumber
               massNumber := r.massNumber
               isotope_code := get_isotope_code r.atomicNumber r.massNumber
               atomicMass := r.isotopeAtomicMass.getD 0
               atomicWeight := r.elementAtomicWeight.getD 0
               abundance := if mnTruthy massNumber then 1 else r.isotopicComposition.getD 0
               concentration := none }
      else none))

/-! ## materials.py — formula tokenising -/

/-- Uppercase ASCII letter test (`[A-Z]`). -/
def isUpperAZ (c : Char) : Bool := 'A' ≤ c ∧ c ≤ 'Z'

/-- Lowercase ASCII letter test (`[a-z]`). -/
def isLowerAZ (c : Char) : Bool := 'a' ≤ c ∧ c ≤ 'z'

/-- Scanner for `re.findall(r"([A-Z][a-z]?)(\d*\.?\d*)", formula)`: walk the
string; at an uppercase letter take an optional lowercase letter, then
greedily digits, an optional dot, and digits again; other characters are
skipped.  All quantifiers here are innocuous (every part after the symbol is
optional), so greedy scanning without backtracking is the exact regex
behaviour.  Fuel is the string length; each step consumes at least one
character, so the fuel never runs out. -/
def scanAmountsGo : ℕ → List Char → List (String × String)
  | 0, _ => []
  | _, [] => []
  | fuel + 1, c :: rest =>
    if isUpperAZ c then
      let symRest : List Char × List Char :=
        match rest with
        | d :: r => if isLowerAZ d then ([c, d], r) else ([c], rest)
        | [] => ([c], [])
      let ds1 := symRest.2.takeWhile Char.isDigit
      let r2 := symRest.2.drop ds1.length
      let dotRest : List Char × List Char :=
        match r2 with
        | '.' :: r => (['.'], r)
        | _ => ([], r2)
      let ds2 := dotRest.2.takeWhile Char.isDigit
      let r4 := dotRest.2.drop ds2.length
      (String.mk symRest.1, String.mk (ds1 ++ dotRest.1 ++ ds2)) :: scanAmountsGo fuel r4
    else
      scanAmountsGo fuel rest

/-- `self.element_amounts = re.findall(r"([A-Z][a-z]?)(\d*\.?\d*)", formula)`. -/
def element_amounts (formula : String) : List (String × String) :=
  scanAmountsGo formula.toList.length formula.toList

/-! ## materials.py — Mixture -/

/-- One element spec of a formula after resolution: the parsed quantity and
the isotopes the element resolves to.  (Staging device used to state the
concentration formulas; the executable path below is the source's
interleaved loop, proved equal to this staged form.) -/
structure ResolvedElement where
  fraction : ℚ
  isotopes : List Isotope

/-- Resolve every `(symbol, quantity-string)` pair of a formula, failing on
the first symbol lookup or float conversion that raises. -/
def resolve_amounts (table : List Row) : List (String × String) → Except String (List ResolvedElement)
  | [] => .ok []
  | (sym, fracStr) :: rest =>
    match retrieve_composition table sym with
    | .error e => .error e
    | .ok isos =>
      match pyFracVal fracStr with
      | .error e => .error e
      | .ok fraction =>
        match resolve_amounts table rest with
        | .error e => .error e
        | .ok rs => .ok (⟨fraction, isos⟩ :: rs)

/-- The per-isotope assignment in `Mixture.update_isotope_concentrations`:
weight-fraction mode divides the weight fraction by the element atomic
weight, molar mode divides by the compound molar mass. -/
def isotopeWithConc (uwf : Bool) (d mm twp fraction : ℚ) (iso : Isotope) : Isotope :=
  if uwf then
    { iso with concentration := some (AVOGADRO * d * iso.abundance * (fraction / twp) / iso.atomicWeight) }
  else
    { iso with concentration := some (AVOGADRO * d * iso.abundance * fraction / mm) }

/-- materials.py `Mixture.update_isotope_concentrations`: loop over the
element amounts, resolve each element, convert its quantity, and append one
isotope per table row with its computed concentration.  `mm` is
`self.compound_molar_mass` (only read in molar mode) and `twp` is
`self.total_weight_parts` (only read in weight-fraction mode). -/
def update_isotope_concentrations (table : List Row) (uwf : Bool) (d mm twp : ℚ) :
    List (String × String) → List Isotope → Except String (List Isotope)
  | [], acc => .ok acc
  | (sym, fracStr) :: rest, acc =>
    match retrieve_composition table sym with
    | .error e => .error e
    | .ok isos =>
      match pyFracVal fracStr with
      | .error e => .error e
      | .ok fraction =>
        update_isotope_concentrations table uwf d mm twp rest
          (acc ++ isos.map (isotopeWithConc uwf d mm twp fraction))

/-- materials.py `Mixture.calculate_molar_mass`: accumulate
`element.isotopes[0].atomic_weight * fraction` over the element amounts;
indexing an empty isotope list raises `IndexError`. -/
def calculate_molar_mass (table : List Row) : List (String × String) → ℚ → Except String ℚ
  | [], mass => .ok mass
  | (sym, fracStr) :: rest, mass =>
    match retrieve_composition table sym with
    | .error e => .error e
    | .ok isos =>
      match pyFracVal fracStr with
      | .error e => .error e
      | .ok fraction =>
        match isos with
        | [] => .error "IndexError: list index out of range"
        | iso0 :: _ => calculate_molar_mass table rest (mass + iso0.atomicWeight * fraction)

/-- `sum(float(x[1]) if x[1] else 1.0 for x in self.element_amounts)`
(the weight-fraction branch of `Mixture.__init__`). -/
def total_weight_parts : List (String × String) → ℚ → Except String ℚ
  | [], acc => .ok acc
  | (_, fracStr) :: rest, acc =>
    match pyFracVal fracStr with
    | .error e => .error e
    | .ok q => total_weight_parts rest (acc + q)

/-- The state a constructed materials.py `Mixture` carries. -/
structure MixtureR where
  name : String
  formula : String
  density : ℚ
  useWeightFractions : Bool
  compoundMolarMass : Option ℚ
  totalWeightParts : Option ℚ
  isotopes : List Isotope

/-- materials.py `Mixture.__init__`: tokenize the formula, in molar mode
compute the compound molar mass, in weight-fraction mode the total weight
parts, then fill in the isotope concentrations.  `name if name else formula`
resolves the display name. -/
def mkMixture (table : List Row) (formula : String) (density : ℚ)
    (name : Option String) (uwf : Bool) : Except String MixtureR :=
  let amounts := element_amounts formula
  let dispName := if pyNameFalsy name then formula else name.getD formula
  if uwf then
    match total_weight_parts amounts 0 with
    | .error e => .error e
    | .ok twp =>
      match update_isotope_concentrations table true density 0 twp amounts [] with
      | .error e => .error e
      | .ok isos =>
        .ok { name := dispName, formula := formula, density := density,
              useWeightFractions := true, compoundMolarMass := none,
              totalWeightParts := some twp, isotopes := isos }
  else
    match calculate_molar_mass table amounts 0 with
    | .error e => .error e
    | .ok mm =>
      match update_isotope_concentrations table false density mm 0 amounts [] with
      | .error e => .error e
      | .ok isos =>
        .ok { name := dispName, formula := formula, density := density,
              useWeightFractions := false, compoundMolarMass := some mm,
              totalWeightParts := none, isotopes := isos }

/-- Concentration registered in a mixture for a given isotope code (0 when
the code is absent or its concentration was never set). -/
def concOf (m : MixtureR) (code : String) : ℚ :=
  ((m.isotopes.find? (fun i => i.isotope_code == code)).bind (fun i => i.concentration)).getD 0

/-! ## materials.py — Material -/

/-- materials.py `Material` state: accumulated density and an isotope-code →
concentration dict. -/
structure MaterialR where
  name : Option String
  density : ℚ
  threshold : ℚ
  isotopes : List (String × ℚ)

/-- materials.py `Mixture.__mul__`: build a `Material` with the scaled
density, then copy every isotope whose concentration is truthy (set and
nonzero), scaled by the factor. -/
def mixMul (m : MixtureR) (factor : ℚ) : MaterialR :=
  { name := some m.name
    density := m.density * factor
    threshold := 0
    isotopes := m.isotopes.foldl (fun acc iso =>
      match iso.concentration with
      | some c => if c ≠ 0 then dictSet acc iso.isotope_code (c * factor) else acc
      | none => acc) [] }

/-- materials.py `Material.__add__` (Material + Material branch): sum the
partial densities, keep the more permissive threshold, resolve the name from
the left operand, and accumulate the right operand's isotopes into a copy of
the left's via `get(code, 0.0) + conc`. -/
def matAdd (a b : MaterialR) : MaterialR :=
  { name := if pyNameFalsy a.name ∧ ¬ pyNameFalsy b.name then b.name else a.name
    density := a.density + b.density
    threshold := min a.threshold b.threshold
    isotopes := b.isotopes.foldl
      (fun acc p => dictSet acc p.1 (dictGetD acc p.1 0 + p.2)) a.isotopes }

/-- materials.py `Material.__mul__`: scale the density and every
concentration, preserving name and threshold. -/
def matMul (m : MaterialR) (factor : ℚ) : MaterialR :=
  { name := m.name
    density := m.density * factor
    threshold := m.threshold
    isotopes := m.isotopes.map (fun p => (p.1, p.2 * factor)) }

/-- materials.py `Material.__rmul__` delegates to `__mul__`. -/
def matRMul (factor : ℚ) (m : MaterialR) : MaterialR := matMul m factor

/-- materials.py `Material.__init__` on the `formula` path: `None` or `0.0`
density raises `ValueError("Density required for formula init")`, otherwise
an internal molar-mode `Mixture` is built and its truthy concentrations
seed the isotope dict. -/
def material_init_formula (table : List Row) (name : Option String) (formula : String)
    (density : ℚ) : Except String MaterialR :=
  if density = 0 then .error "Density required for formula init"
  else
    match mkMixture table formula density name false with
    | .error e => .error e
    | .ok mix =>
      .ok { name := some mix.name
            density := mix.density
            threshold := 0
            isotopes := mix.isotopes.foldl (fun acc iso =>
              match iso.concentration with
              | some c => if c ≠ 0 then dictSet acc iso.isotope_code c else acc
              | none => acc) [] }

/-! ## Python numeric formatting (`%.3f`, `%.6E`) -/

/-- Floor of a rational as an integer (`Int.fdiv` rounds towards −∞). -/
def ratFloor (q : ℚ) : ℤ := Int.fdiv q.num q.den

/-- Round-half-to-even on a rational, the rounding Python applies when
formatting to a fixed number of decimal digits. -/
def roundHalfEven (q : ℚ) : ℤ :=
  let f := ratFloor q
  let r := q - (f : ℚ)
  if r < 1/2 then f
  else if (1 : ℚ)/2 < r then f + 1
  else if f % 2 = 0 then f else f + 1

/-- Fuel-driven base-10 logarithm on ℕ (floor of log₁₀ for positive input;
fuel equal to the input always suffices). -/
def log10Go : ℕ → ℕ → ℕ
  | 0, _ => 0
  | fuel + 1, n => if n < 10 then 0 else 1 + log10Go fuel (n / 10)

/-- Floor of the base-10 logarithm of a natural number. -/
def log10 (n : ℕ) : ℕ := log10Go n n

/-- Zero-pad a numeral string to at least two characters (the exponent field
of Python's `%E` formatting). -/
def pad2 (s : String) : String := if s.length < 2 then "0" ++ s else s

/-- Mantissa (as an integer in [10⁶, 10⁷)) and exponent of the `%.6E`
scientific rendering of a nonzero rational. -/
def fmtE6core (q : ℚ) : ℕ × ℤ :=
  let a := |q|
  let e0 : ℤ := (log10 a.num.natAbs : ℤ) - (log10 a.den : ℤ)
  let e1 : ℤ := if a < (10 : ℚ) ^ e0 then e0 - 1 else e0
  let m7 : ℕ := (roundHalfEven (a / (10 : ℚ) ^ e1 * 1000000)).toNat
  if m7 = 10000000 then (1000000, e1 + 1) else (m7, e1)

/-- The three textual parts of `f"{q:.6E}"`: the signed leading digit, the
six digits after the decimal point, and the signed two-digit exponent. -/
def fmtE6parts (q : ℚ) : String × String × String :=
  if q = 0 then ("0", "000000", "+00")
  else
    let me := fmtE6core q
    ((if q < 0 then "-" else "") ++ String.mk [Nat.digitChar (me.1 / 1000000 % 10)],
     String.mk ((List.range 6).map (fun i => Nat.digitChar (me.1 / 10 ^ (5 - i) % 10))),
     (if me.2 < 0 then "-" else "+") ++ pad2 (Nat.repr me.2.natAbs))

/-- Python's `f"{q:.6E}"` scientific formatting with six digits after the
decimal point. -/
def fmtE6 (q : ℚ) : String :=
  (fmtE6parts q).1 ++ "." ++ (fmtE6parts q).2.1 ++ "E" ++ (fmtE6parts q).2.2

/-- The rational value denoted by the `%.6E` rendering of `q` — what Python's
`float(f"{q:.6E}")` reads back. -/
def fmtE6Val (q : ℚ) : ℚ :=
  if q = 0 then 0
  else (if q < 0 then -1 else 1) * ((fmtE6core q).1 : ℚ) / 1000000 * (10 : ℚ) ^ (fmtE6core q).2

/-- The two textual parts of `f"{q:.3f}"`: the signed integer part and the
three digits after the decimal point. -/
def fmt3fparts (q : ℚ) : String × String :=
  let r := roundHalfEven (q * 1000)
  let n := r.natAbs
  ((if r < 0 ∨ (r = 0 ∧ q < 0) then "-" else "") ++ Nat.repr (n / 1000),
   String.mk ((List.range 3).map (fun i => Nat.digitChar (n / 10 ^ (2 - i) % 10))))

/-- Python's `f"{q:.3f}"` fixed-point formatting with three digits after the
decimal point. -/
def fmt3f (q : ℚ) : String := (fmt3fparts q).1 ++ "." ++ (fmt3fparts q).2

/-! ## materials.py — Material rendering -/

/-- The key `int(x[0]) if x[0].isdigit() else 0` that `Material.__str__`
sorts by (Python's `str.isdigit` is false on the empty string). -/
def sort_key (code : String) : ℕ :=
  match code.toList with
  | [] => 0
  | l => if l.all Char.isDigit then digitsVal l else 0

/-- The filtered and sorted isotope list of `Material.__str__`: keep the
pairs whose concentration reaches the threshold (in dict order), then sort
by `sort_key` (Python's `list.sort` is stable; so is insertion sort). -/
def rendered_pairs (m : MaterialR) : List (String × ℚ) :=
  List.insertionSort (fun a b : String × ℚ => sort_key a.1 ≤ sort_key b.1)
    (m.isotopes.filter (fun p => m.threshold ≤ p.2))

/-- materials.py `Material.__str__`: header line with the name and the
density rendered `%.3f`, then one `code\tconcentration` line per surviving
isotope with the concentration rendered `%.6E`, joined by newlines. -/
def material_str (m : MaterialR) : String :=
  String.intercalate "\n"
    (("$ " ++ pyNameStr m.name ++ ";" ++ "\t" ++ fmt3f m.density ++ " g/cm3") ::
      (rendered_pairs m).map (fun p => p.1 ++ "\t" ++ fmtE6 p.2))

/-- What claim C6 asserts of the rendering of a material, phrased against
the embedding: the rendered pairs are exactly the isotopes at or above the
threshold, they are sorted ascending by the numeric value of the isotope
code, the output is the header plus one tab-separated line per pair, every
concentration is formatted in scientific notation with six digits after the
decimal point, and the density with three digits after the decimal point. -/
def renders_per_spec (m : MaterialR) : Prop :=
  (∀ p : String × ℚ, p ∈ rendered_pairs m ↔ (p ∈ m.isotopes ∧ m.threshold ≤ p.2)) ∧
  List.Sorted (fun a b : String × ℚ => digitsVal a.1.toList ≤ digitsVal b.1.toList)
    (rendered_pairs m) ∧
  material_str m = String.intercalate "\n"
    (("$ " ++ pyNameStr m.name ++ ";" ++ "\t" ++ fmt3f m.density ++ " g/cm3") ::
      (rendered_pairs m).map (fun p => p.1 ++ "\t" ++ fmtE6 p.2)) ∧
  (∀ p : String × ℚ, p ∈ rendered_pairs m →
    ∃ a b c : String, fmtE6 p.2 = a ++ "." ++ b ++ "E" ++ c ∧ b.length = 6) ∧
  (∃ a b : String, fmt3f m.density = a ++ "." ++ b ∧ b.length = 3)

/-! ## generate_materials.py — ConcentrationConvertor -/

/-- Avogadro's number as generate_materials.py fixes it
(`self.AVOGADRO = 0.602`). -/
def gmAVOGADRO : ℚ := 602 / 1000

/-- Python `str.split()` with no argument: split on whitespace runs,
dropping empty pieces. -/
def splitWhitespace (s : String) : List String :=
  (s.split Char.isWhitespace).filter (fun p => p ≠ "")

/-- Build a Python dict from key/value pairs in order (later duplicates
overwrite, as in a dict comprehension). -/
def dictOfPairs (ps : List (String × ℚ)) : List (String × ℚ) :=
  ps.foldl (fun acc p => dictSet acc p.1 p.2) []

/-- generate_materials.py `ConcentrationConvertor.parse_formula`: split the
formula on whitespace, run the element regex on each component, and build
one `element → quantity` dict per component (no quantity means 1).  `none`
models a `float` conversion failure. -/
def parse_formula (formula : String) : Option (List (List (String × ℚ))) :=
  (splitWhitespace formula).mapM (fun comp =>
    ((scanAmountsGo comp.toList.length comp.toList).mapM (fun p =>
        (if p.2 = "" then some 1 else pyFloat p.2.toList).map (fun q => (p.1, q)))).map
      dictOfPairs)

/-- All table rows of one element, `self.data[self.data["element"] == el]`. -/
def table_rows (table : List Row) (el : String) : List Row :=
  table.filter (fun r => r.element == el)

/-- The element weight lookup of `ConcentrationConvertor.calculate`: first
defined `element_atomic_weight`, else (radioactive elements) first defined
`isotope_atomic_mass`; `none` models the `IndexError` when both are empty. -/
def element_weight (table : List Row) (el : String) : Option ℚ :=
  match (table_rows table el).filterMap (fun r => r.elementAtomicWeight) with
  | w :: _ => some w
  | [] =>
    match (table_rows table el).filterMap (fun r => r.isotopeAtomicMass) with
    | m :: _ => some m
    | [] => none

/-- The per-component molecular mass of `ConcentrationConvertor.calculate`:
`component_mass += weight * (num if num > 1 else 1)` over the component's
element dict. -/
def component_mass (table : List Row) : List (String × ℚ) → ℚ → Option ℚ
  | [], acc => some acc
  | (el, num) :: rest, acc =>
    match element_weight table el with
    | none => none
    | some w => component_mass table rest (acc + w * (if 1 < num then num else 1))

/-- pandas `idxmax` over the `isotopic_composition` column: the first row
holding the maximal defined composition (NaN rows skipped). -/
def idxmax_composition (rows : List Row) : Option Row :=
  (rows.filter (fun r => r.isotopicComposition.isSome)).foldl
    (fun best r =>
      match best with
      | none => some r
      | some b =>
        if (b.isotopicComposition.getD 0) < (r.isotopicComposition.getD 0) then some r
        else some b)
    none

/-- generate_materials.py `calculate.get_concentration`: format the
concentration `%.6E`, drop it when the formatted value is below the
threshold, otherwise emit the `code\tconcentration\n` line. -/
def get_concentration (threshold factor abundance units : ℚ) (atomicNumber massNumber : ℕ) :
    Option String :=
  let concentration := fmtE6 (factor * abundance * units)
  if fmtE6Val (factor * abundance * units) < threshold then none
  else some (get_isotope_code atomicNumber massNumber ++ "\t" ++ concentration ++ "\n")

/-- The per-element body of `ConcentrationConvertor.calculate`: when no row
of the element has a defined isotopic composition, print a warning and use
the first row with abundance 1.0; otherwise with natural compositions off
use the `idxmax` row with abundance 1.0; otherwise one line per row with a
defined composition.  The result pairs the appended output entries with the
printed warnings; `none` models the `IndexError` on an element absent from
the table. -/
def element_block (table : List Row) (el : String) (factor units threshold : ℚ)
    (useNatural : Bool) : Option (List (Option String) × List String) :=
  let isotopes := table_rows table el
  if ¬ isotopes.any (fun r => r.isotopicComposition.isSome) then
    match isotopes with
    | [] => none
    | iso :: _ =>
      some ([get_concentration threshold factor 1 units iso.atomicNumber iso.massNumber],
        ["Warning: No abundance data for " ++ el ++ ". Using 100% isotope concentration..."])
  else if ¬ useNatural then
    match idxmax_composition isotopes with
    | none => none
    | some primary =>
      some ([get_concentration threshold factor 1 units primary.atomicNumber primary.massNumber],
        [])
  else
    some ((isotopes.filter (fun r => r.isotopicComposition.isSome)).map
      (fun r => get_concentration threshold factor (r.isotopicComposition.getD 0) units
        r.atomicNumber r.massNumber), [])

/-! ## main.py — the mixture grammar -/

/-- Python `str.split("+")`: split on every plus sign, keeping empty parts. -/
def splitPlus : List Char → List Char → List (List Char)
  | [], acc => [acc.reverse]
  | c :: rest, acc =>
    if c = '+' then acc.reverse :: splitPlus rest [] else splitPlus rest (c :: acc)

/-- Python `str.strip()`: drop leading and trailing whitespace. -/
def stripL (s : List Char) : List Char :=
  ((s.dropWhile Char.isWhitespace).reverse.dropWhile Char.isWhitespace).reverse

/-- The regex `.` metacharacter: any character except a newline. -/
def nonNl (c : Char) : Bool := c != '\n'

/-- First success in a list of alternatives, in order — the order a
backtracking regex engine tries them. -/
def firstSome {α : Type} : List (Option α) → Option α
  | [] => none
  | none :: t => firstSome t
  | some a :: _ => some a

/-- `[n, n-1, ..., 1]` — the lengths a greedy `\d+` tries, longest first. -/
def downTo1 : ℕ → List ℕ
  | 0 => []
  | n + 1 => (n + 1) :: downTo1 n

/-- `[n, n-1, ..., 0]` — the lengths a greedy `\d*` tries, longest first. -/
def downFrom : ℕ → List ℕ
  | 0 => [0]
  | n + 1 => (n + 1) :: downFrom n

/-- Length of the maximal digit run at the head of the string. -/
def digitRunLen (s : List Char) : ℕ := (s.takeWhile Char.isDigit).length

/-- The alternatives of the optional `.?` of pattern `(\d+.?\d*)%(.+)`:
consume one (non-newline) character first, then nothing. -/
def p1opt (r1 : List Char) : List (List Char × List Char) :=
  (match r1 with
   | c :: r => if nonNl c then [([c], r)] else []
   | [] => []) ++ [([], r1)]

/-- The tail of pattern `(\d+.?\d*)%(.+)` after group 1: a literal percent
sign, then group 2 as the greedy nonempty run of non-newline characters. -/
def p1close (g1 r3 : List Char) : Option (List Char × List Char) :=
  match r3 with
  | c :: rest =>
    if c = '%' then
      let g2 := rest.takeWhile nonNl
      if g2 = [] then none else some (g1, g2)
    else none
  | [] => none

/-- Backtracking match of `(\d+.?\d*)%(.+)` anchored at the head of `s`,
with the engine's preference order: longest `\d+` first, `.?` present
first, longest `\d*` first. -/
def matchP1At (s : List Char) : Option (List Char × List Char) :=
  firstSome ((downTo1 (digitRunLen s)).map (fun len1 =>
    firstSome ((p1opt (s.drop len1)).map (fun oc =>
      firstSome ((downFrom (digitRunLen oc.2)).map (fun len2 =>
        p1close (s.take len1 ++ oc.1 ++ oc.2.take len2) (oc.2.drop len2)))))))

/-- `re.search(r"(\d+.?\d*)%(.+)", s)`: try each start position left to
right. -/
def searchP1 : List Char → Option (List Char × List Char)
  | [] => none
  | c :: rest =>
    match matchP1At (c :: rest) with
    | some g => some g
    | none => searchP1 rest

/-- Backtracking match of `(\d+\.\d+)(.*)` anchored at the head of `s`:
greedy first digit run, a literal dot, greedy nonempty second digit run,
then group 2 as the greedy (possibly empty) run of non-newline characters. -/
def matchP2At (s : List Char) : Option (List Char × List Char) :=
  firstSome ((downTo1 (digitRunLen s)).map (fun len1 =>
    match s.drop len1 with
    | c :: r2 =>
      if c = '.' then
        firstSome ((downTo1 (digitRunLen r2)).map (fun len2 =>
          some (s.take len1 ++ '.' :: r2.take len2, (r2.drop len2).takeWhile nonNl)))
      else none
    | [] => none))

/-- `re.search(r"(\d+\.\d+)(.*)", s)`. -/
def searchP2 : List Char → Option (List Char × List Char)
  | [] => none
  | c :: rest =>
    match matchP2At (c :: rest) with
    | some g => some g
    | none => searchP2 rest

/-- Association-list write for char-list keys (the `fractions` dict of
main.py, keyed by formula text). -/
def dictSetL (xs : List (List Char × ℚ)) (k : List Char) (v : ℚ) : List (List Char × ℚ) :=
  if xs.any (fun p => p.1 == k) then
    xs.map (fun p => if p.1 == k then (k, v) else p)
  else
    xs ++ [(k, v)]

/-- The per-part body of main.py `parse_mixture`: strip the part, try
pattern `(\d+.?\d*)%(.+)` then `(\d+\.\d+)(.*)`; on a match record
`fractions[formula] = float(fraction)` (a failing `float` raises, modelled
by `none`), otherwise `fractions[part] = 1.0`. -/
def parse_part (acc : List (List Char × ℚ)) (part : List Char) : Option (List (List Char × ℚ)) :=
  let p := stripL part
  match searchP1 p with
  | some g => (pyFloat g.1).map (fun fr => dictSetL acc g.2 fr)
  | none =>
    match searchP2 p with
    | some g => (pyFloat g.1).map (fun fr => dictSetL acc g.2 fr)
    | none => some (dictSetL acc p 1)

/-- main.py `parse_mixture` on the character-list view of the input: split
on plus signs and fold the per-part parser over the parts. -/
def parse_mixtureL (mixture : List Char) : Option (List (List Char × ℚ)) :=
  (splitPlus mixture []).foldlM parse_part []

/-- main.py `parse_mixture`. -/
def parse_mixture (mixture : String) : Option (List (List Char × ℚ)) :=
  parse_mixtureL mixture.toList

/-- Whether the string contains a digit immediately followed by a dot and
another digit — exactly the condition under which `re.search` finds the
pattern `(\d+\.\d+)` somewhere in the string. -/
def hasDigitDotDigit : List Char → Bool
  | a :: b :: c :: rest => (a.isDigit && b == '.' && c.isDigit) || hasDigitDotDigit (b :: c :: rest)
  | _ => false

/-- Modelled from the spec: the consumer of the parsed fractions — the
superseded `Material(compound_fractions=...)` constructor that
`main.run_sequence` calls — is absent from src/.  Per spec §4.1, fractions
greater than 1 are interpreted as percentages and divided by 100 before use
as weights; other fractions are used literally. -/
def normalize_compound_fraction (fraction : ℚ) : ℚ :=
  if 1 < fraction then fraction / 100 else fraction

/-! ## Spec-side definitions used for comparison -/

/-- The molar-mass rule claim C2 asserts, written from the claim's words:
atomic weight times `max(quantity, 1)` for the specs with quantity ≥ 1,
the sum of those divided by `purityFactor = 1 − Σ(quantities below 1)`,
plus atomic weight times the raw quantity for the dopant specs.  Stated
over `(atomic weight, quantity)` pairs. -/
def specClaimedMolarMass (specs : List (ℚ × ℚ)) : ℚ :=
  ((specs.filter (fun p => 1 ≤ p.2)).map (fun p => p.1 * max p.2 1)).sum /
      (1 - ((specs.filter (fun p => p.2 < 1)).map (fun p => p.2)).sum) +
    ((specs.filter (fun p => p.2 < 1)).map (fun p => p.1 * p.2)).sum

/-- Relative closeness within one percent, reading the claims' `≈` for
positive reference values. -/
def closeTo (x c : ℚ) : Prop := c * (99 / 100) < x ∧ x < c * (101 / 100)

instance (x c : ℚ) : Decidable (closeTo x c) := by
  unfold closeTo
  infer_instance

instance : IsTotal (String × ℚ) (fun a b => sort_key a.1 ≤ sort_key b.1) :=
  ⟨fun x y => Nat.le_total (sort_key x.1) (sort_key y.1)⟩

instance : IsTrans (String × ℚ) (fun a b => sort_key a.1 ≤ sort_key b.1) :=
  ⟨fun _ _ _ h h2 => Nat.le_trans h h2⟩

/-! ## Association-list (Python dict) lemmas -/

theorem dictGet_map_ne (t : List (String × ℚ)) (k j : String) (v : ℚ) (h : j ≠ k) :
    dictGet (t.map (fun p => if p.1 == k then (k, v) else p)) j = dictGet t j := by
  induction t with
  | nil => rfl
  | cons p t ih =>
    simp only [List.map_cons, dictGet] at ih ⊢
    by_cases hk : p.1 = k
    · have h1 : (if (p.1 == k) = true then (k, v) else p) = (k, v) := by simp [hk]
      rw [h1, List.find?_cons_of_neg _ (by simp only [beq_iff_eq]; exact Ne.symm h),
        List.find?_cons_of_neg _ (by simp only [beq_iff_eq, hk]; exact Ne.symm h)]
      exact ih
    · have h1 : (if (p.1 == k) = true then (k, v) else p) = p := by simp [hk]
      rw [h1]
      by_cases hj : p.1 = j
      · rw [List.find?_cons_of_pos _ (by simp [hj]), List.find?_cons_of_pos _ (by simp [hj])]
      · rw [List.find?_cons_of_neg _ (by simp [hj]), List.find?_cons_of_neg _ (by simp [hj])]
        exact ih

theorem dictGet_dictSet (xs : List (String × ℚ)) (k : String) (v : ℚ) (j : String) :
    dictGet (dictSet xs k v) j = if j = k then some v else dictGet xs j := by
  unfold dictSet
  by_cases hany : xs.any (fun p => p.1 == k) = true
  · rw [if_pos hany]
    by_cases hj : j = k
    · subst hj
      induction xs with
      | nil => simp at hany
      | cons p t ih =>
        simp only [List.any_cons, Bool.or_eq_true] at hany
        by_cases hk : p.1 = j
        · have h1 : (if (p.1 == j) = true then (j, v) else p) = (j, v) := by simp [hk]
          simp only [List.map_cons, h1, dictGet]
          rw [List.find?_cons_of_pos _ (by simp)]
          simp
        · have h1 : (if (p.1 == j) = true then (j, v) else p) = p := by simp [hk]
          have hany2 : t.any (fun p => p.1 == j) = true := by
            rcases hany with hh | hh
            · exact absurd (beq_iff_eq.mp hh) hk
            · exact hh
          simp only [List.map_cons, h1, dictGet]
          rw [List.find?_cons_of_neg _ (by simp [hk])]
          have := ih hany2
          simpa [dictGet] using this
    · rw [if_neg hj]
      exact dictGet_map_ne xs k j v hj
  · rw [if_neg hany]
    simp only [List.any_eq_true, not_exists, not_and, Bool.not_eq_true] at hany
    induction xs with
    | nil =>
      simp only [List.nil_append, dictGet]
      by_cases hj : j = k
      · subst hj
        rw [List.find?_cons_of_pos _ (by simp)]
        simp
      · rw [List.find?_cons_of_neg _ (by simp [Ne.symm hj])]
        simp [if_neg hj]
    | cons p t ih =>
      have hp : ¬ p.1 = k := by
        intro hh
        have := hany p (by simp)
        simp [hh] at this
      by_cases hj : p.1 = j
      · simp only [List.cons_append, dictGet]
        rw [List.find?_cons_of_pos _ (by simp [hj]), List.find?_cons_of_pos _ (by simp [hj])]
        have hjk : ¬ j = k := by
          intro hh
          exact hp (hj.trans hh)
        simp [if_neg hjk]
      · simp only [List.cons_append, dictGet]
        rw [List.find?_cons_of_neg _ (by simp [hj]), List.find?_cons_of_neg _ (by simp [hj])]
        have := ih (fun x hx => hany x (by simp [hx]))
        simpa [dictGet] using this

theorem dictGet_eq_none (xs : List (String × ℚ)) (j : String) (h : j ∉ xs.map Prod.fst) :
    dictGet xs j = none := by
  induction xs with
  | nil => rfl
  | cons p t ih =>
    simp only [List.map_cons, List.mem_cons, not_or] at h
    simp only [dictGet]
    rw [List.find?_cons_of_neg _ (by simp [Ne.symm h.1])]
    have := ih h.2
    simpa [dictGet] using this

theorem dictGet_foldl_acc (bl : List (String × ℚ)) (acc : List (String × ℚ)) (j : String)
    (hnd : (bl.map Prod.fst).Nodup) :
    dictGet (bl.foldl (fun acc p => dictSet acc p.1 (dictGetD acc p.1 0 + p.2)) acc) j =
      mergeOpt (dictGet acc j) (dictGet bl j) := by
  induction bl generalizing acc with
  | nil =>
    simp only [List.foldl_nil, show dictGet [] j = none from rfl]
    cases h : dictGet acc j <;> simp [mergeOpt, h]
  | cons p tl ih =>
    simp only [List.map_cons, List.nodup_cons] at hnd
    simp only [List.foldl_cons]
    rw [ih (dictSet acc p.1 (dictGetD acc p.1 0 + p.2)) hnd.2]
    by_cases hj : j = p.1
    · rw [hj, dictGet_dictSet, if_pos rfl, dictGet_eq_none tl p.1 hnd.1]
      have hhd : dictGet (p :: tl) p.1 = some p.2 := by
        simp only [dictGet]
        rw [List.find?_cons_of_pos _ (by simp)]
        rfl
      rw [hhd]
      cases hacc : dictGet acc p.1 <;>
        simp [mergeOpt, dictGetD, hacc, zero_add]
    · rw [dictGet_dictSet, if_neg hj]
      have hhd : dictGet (p :: tl) j = dictGet tl j := by
        simp only [dictGet]
        rw [List.find?_cons_of_neg _ (by simp [Ne.symm hj])]
      rw [hhd]

theorem dictGet_map_scale (xs : List (String × ℚ)) (k : ℚ) (j : String) :
    dictGet (xs.map (fun p => (p.1, p.2 * k))) j = (dictGet xs j).map (fun c => c * k) := by
  induction xs with
  | nil => rfl
  | cons p t ih =>
    simp only [List.map_cons, dictGet]
    by_cases hj : p.1 = j
    · rw [List.find?_cons_of_pos _ (by simp [hj]), List.find?_cons_of_pos _ (by simp [hj])]
      simp
    · rw [List.find?_cons_of_neg _ (by simp [hj]), List.find?_cons_of_neg _ (by simp [hj])]
      simpa [dictGet] using ih

/-! ## Claims C3 and C4 -/

/-- C3: for all Materials a and b, `a + b` is a new Material whose density is
`a.density + b.density` and whose isotope map is the union of both operands'
maps with concentrations summed (never overwritten) for codes present in
both; in particular `Mixture("CH2", 0.94) * 0.9 + Mixture("B4C", 2.52) * 0.1`
has density 1.098. -/
theorem claim_C3 :
    (∀ a b : MaterialR, (b.isotopes.map Prod.fst).Nodup →
      (matAdd a b).density = a.density + b.density ∧
      (∀ code, dictGet (matAdd a b).isotopes code =
        mergeOpt (dictGet a.isotopes code) (dictGet b.isotopes code))) ∧
    ((mkMixture nist "CH2" (94/100) (some "Polyethylene") false).map (fun pe =>
      (mkMixture nist "B4C" (252/100) (some "Boric Acid") false).map (fun ba =>
        (matAdd (mixMul pe (9/10)) (mixMul ba (1/10))).density))) = .ok (.ok (1098/1000)) := by
  constructor
  · intro a b hnd
    exact ⟨rfl, fun code => dictGet_foldl_acc b.isotopes a.isotopes code hnd⟩
  · with_unfolding_all rfl

/-- Witness for C3 at concrete materials: the Nodup hypothesis holds and the
additive-combination properties follow at a shared isotope code. -/
theorem claim_C3_witness :
    (([("1001", (2 : ℚ)), ("8016", 1)].map Prod.fst).Nodup) ∧
    (matAdd ⟨some "a", 1, 0, [("1001", 3)]⟩ ⟨some "b", 2, 0, [("1001", 2), ("8016", 1)]⟩).density
      = 1 + 2 ∧
    dictGet (matAdd ⟨some "a", 1, 0, [("1001", 3)]⟩
        ⟨some "b", 2, 0, [("1001", 2), ("8016", 1)]⟩).isotopes "1001" =
      mergeOpt (dictGet [("1001", 3)] "1001") (dictGet [("1001", 2), ("8016", 1)] "1001") :=
  ⟨by decide,
   (claim_C3.1 ⟨some "a", 1, 0, [("1001", 3)]⟩ ⟨some "b", 2, 0, [("1001", 2), ("8016", 1)]⟩
      (by decide)).1,
   (claim_C3.1 ⟨some "a", 1, 0, [("1001", 3)]⟩ ⟨some "b", 2, 0, [("1001", 2), ("8016", 1)]⟩
      (by decide)).2 "1001"⟩

/-- C4: for every Material m and scalar k, both `m * k` and `k * m` scale the
density and every isotope concentration by k, and `m * 1.0` has density and
concentrations identical to m's. -/
theorem claim_C4 (m : MaterialR) (k : ℚ) :
    (matMul m k).density = m.density * k ∧
    matRMul k m = matMul m k ∧
    (∀ code, dictGet (matMul m k).isotopes code = (dictGet m.isotopes code).map (fun c => c * k)) ∧
    (matMul m 1).density = m.density ∧ (matMul m 1).isotopes = m.isotopes := by
  refine ⟨rfl, rfl, fun code => dictGet_map_scale m.isotopes k code, by simp [matMul], ?_⟩
  simp [matMul]

/-! ## Staging the concentration loop -/

theorem update_eq_resolve (table : List Row) (uwf : Bool) (d mm twp : ℚ)
    (amounts : List (String × String)) (acc : List Isotope) :
    update_isotope_concentrations table uwf d mm twp amounts acc =
      (resolve_amounts table amounts).map (fun rs =>
        acc ++ rs.flatMap (fun r => r.isotopes.map (isotopeWithConc uwf d mm twp r.fraction))) := by
  induction amounts generalizing acc with
  | nil => simp [update_isotope_concentrations, resolve_amounts, Except.map]
  | cons hd tl ih =>
    obtain ⟨sym, fracStr⟩ := hd
    simp only [update_isotope_concentrations, resolve_amounts]
    cases hcomp : retrieve_composition table sym with
    | error e => simp [Except.map]
    | ok isos =>
      cases hfrac : pyFracVal fracStr with
      | error e => simp [Except.map]
      | ok fraction =>
        dsimp only
        rw [ih]
        cases hres : resolve_amounts table tl with
        | error e => simp [Except.map]
        | ok rs => simp [Except.map, List.append_assoc]

/-! ## Claims C1, C10, C9 -/

/-- C1: in molar (non-weight-fraction) mode every isotope's computed number
density is `AVOGADRO × density × abundance × quantity / compoundMolarMass`,
and for formula "H2O" at density 1.0 isotope 1001 lands within one percent
of 6.674E-02, isotope 8016 within one percent of 3.337E-02, and isotope
1002 is a nonzero trace. -/
theorem claim_C1 :
    (∀ (amounts : List (String × String)) (d mm : ℚ),
      update_isotope_concentrations nist false d mm 0 amounts [] =
        (resolve_amounts nist amounts).map (fun rs => rs.flatMap (fun r =>
          r.isotopes.map (fun iso =>
            { iso with concentration := some (AVOGADRO * d * iso.abundance * r.fraction / mm) })))) ∧
    (mkMixture nist "H2O" 1 none false).toOption.map (fun m => decide (
      closeTo (concOf m "1001") (6674/100000) ∧
      closeTo (concOf m "8016") (3337/100000) ∧
      0 < concOf m "1002" ∧ concOf m "1002" < 1/10000)) = some true := by
  constructor
  · intro amounts d mm
    have hfun : ∀ fr : ℚ, isotopeWithConc false d mm 0 fr = (fun iso =>
        { iso with concentration := some (AVOGADRO * d * iso.abundance * fr / mm) }) := by
      intro fr
      funext iso
      simp [isotopeWithConc]
    rw [update_eq_resolve]
    cases resolve_amounts nist amounts with
    | error e => simp [Except.map]
    | ok rs => simp only [Except.map, List.nil_append, hfun]
  · with_unfolding_all rfl

/-- C10: in weight-fraction mode every isotope's concentration is
`AVOGADRO × density × abundance × (quantity / total_weight_parts) /
atomic_weight`, where the total weight parts sum the formula quantities with
absent ones counted as 1 (so "H2O" gives 3, and H-1 at density 1 gets
exactly the claimed expression). -/
theorem claim_C10 :
    (∀ (amounts : List (String × String)) (d twp : ℚ),
      update_isotope_concentrations nist true d 0 twp amounts [] =
        (resolve_amounts nist amounts).map (fun rs => rs.flatMap (fun r =>
          r.isotopes.map (fun iso =>
            { iso with concentration := some (AVOGADRO * d * iso.abundance * (r.fraction / twp) / iso.atomicWeight) })))) ∧
    (mkMixture nist "H2O" 1 none true).map (fun m => (m.totalWeightParts,
      m.isotopes.map (fun i => (i.isotope_code, i.concentration)))) =
      .ok (some 3,
        [("1001", some (AVOGADRO * 1 * (999885/1000000) * ((2/3) : ℚ) / (1008/1000))),
         ("1002", some (AVOGADRO * 1 * (115/1000000) * ((2/3) : ℚ) / (1008/1000))),
         ("8016", some (AVOGADRO * 1 * (99757/100000) * ((1/3) : ℚ) / (15999/1000))),
         ("8017", some (AVOGADRO * 1 * (38/100000) * ((1/3) : ℚ) / (15999/1000))),
         ("8018", some (AVOGADRO * 1 * (205/100000) * ((1/3) : ℚ) / (15999/1000)))]) := by
  constructor
  · intro amounts d twp
    have hfun : ∀ fr : ℚ, isotopeWithConc true d 0 twp fr = (fun iso =>
        { iso with concentration := some (AVOGADRO * d * iso.abundance * (fr / twp) / iso.atomicWeight) }) := by
      intro fr
      funext iso
      simp [isotopeWithConc]
    rw [update_eq_resolve]
    cases resolve_amounts nist amounts with
    | error e => simp [Except.map]
    | ok rs => simp only [Except.map, List.nil_append, hfun]
  · with_unfolding_all rfl

/-- C9 counterexample: a negative density is accepted — Material
construction from formula "H2O" at density −1 succeeds and returns a
material with density −1 and a negative 8016 concentration, instead of
failing with a `ConfigurationError` (no such error exists in the code). -/
theorem claim_C9_counterexample :
    (material_init_formula nist none "H2O" (-1)).toOption.map (fun m =>
      (m.density, decide (dictGetD m.isotopes "8016" 0 < 0))) = some (-1, true) := by
  with_unfolding_all rfl

/-- C9 (amended): only Material's formula-init path validates the density,
raising `ValueError("Density required for formula init")` exactly when it
is zero (or None); any nonzero density — negative included — constructs a
material carrying that density, and Mixture itself performs no density
validation at all (density 0 constructs silently). -/
theorem claim_C9 :
    (∀ d : ℚ, (material_init_formula nist none "H2O" d).map (fun m => m.density) =
      (if d = 0 then Except.error "Density required for formula init" else Except.ok d)) ∧
    (material_init_formula nist none "H2O" 0 = .error "Density required for formula init") ∧
    (mkMixture nist "H2O" 0 none false).toOption.map (fun m => m.density) = some 0 := by
  refine ⟨?_, by with_unfolding_all rfl, by with_unfolding_all rfl⟩
  intro d
  have hok : (resolve_amounts nist (element_amounts "H2O")).isOk = true := by
    with_unfolding_all rfl
  have hmm : calculate_molar_mass nist (element_amounts "H2O") 0 = .ok (3603/200) := by
    with_unfolding_all rfl
  by_cases hd : d = 0
  · simp [material_init_formula, hd, Except.map]
  · rw [if_neg hd]
    simp only [material_init_formula, if_neg hd, mkMixture, Bool.false_eq_true, if_false]
    rw [hmm]
    dsimp only
    rw [update_eq_resolve]
    cases hres : resolve_amounts nist (element_amounts "H2O") with
    | error e =>
      rw [hres] at hok
      simp [Except.isOk, Except.toBool] at hok
    | ok rs => simp [Except.map]

/-! ## Claims C5 and C8 -/

/-- C5 (the code evaluated at the failing input): resolving the alias
symbol D raises `ValueError` against the spec's H-keyed reference table.
The `search_symbol = "H"` assignment of the D/T branch (materials.py:59) is
immediately overwritten by the else branch of the following if (line 64),
so the table is searched for an element literally named "D"; likewise "T",
and building `Mixture("D2O", 1.0)` aborts instead of selecting isotope 1002. -/
theorem claim_C5 :
    retrieve_composition nist "D" = .error "Element/Isotope not found: D" ∧
    retrieve_composition nist "T" = .error "Element/Isotope not found: T" ∧
    mkMixture nist "D2O" 1 none false = .error "Element/Isotope not found: D" := by
  refine ⟨by with_unfolding_all rfl, by with_unfolding_all rfl, by with_unfolding_all rfl⟩

/-- C8 counterexample: materials.py's Element resolver, given a symbol
without an explicit mass number whose table rows all lack a defined natural
abundance, succeeds with an EMPTY isotope list and emits no diagnostic —
`Element._retrieve_composition` has no first-row fallback. -/
theorem claim_C8_counterexample : retrieve_composition nist "Tc" = .ok [] := by
  with_unfolding_all rfl

/-- C8 (amended): `ConcentrationConvertor.calculate` does implement the
declared fallback — for an element all of whose table rows lack a defined
isotopic composition, the per-element block does not fail, appends exactly
one entry computed from the FIRST table row with abundance forced to 1.0,
and prints the warning; `Element._retrieve_composition`, by contrast,
silently yields an empty isotope list for such symbols (counterexample). -/
theorem claim_C8 (table : List Row) (el : String) (factor units threshold : ℚ)
    (useNatural : Bool) (r : Row) (rest : List Row)
    (hrows : table_rows table el = r :: rest)
    (hnone : ∀ row ∈ table_rows table el, row.isotopicComposition = none) :
    element_block table el factor units threshold useNatural =
      some ([get_concentration threshold factor 1 units r.atomicNumber r.massNumber],
        ["Warning: No abundance data for " ++ el ++ ". Using 100% isotope concentration..."]) := by
  have hany : ((r :: rest).any (fun row => row.isotopicComposition.isSome)) = false := by
    rw [List.any_eq_false]
    intro row hrow
    rw [hrows] at hnone
    simp [hnone row hrow]
  simp [element_block, hrows, hany]

/-- Witness for C8 at the technetium rows of the modelled table. -/
theorem claim_C8_witness :
    table_rows nist "Tc" =
      [⟨"Tc", 43, 97, some (96906367/1000000), none, none⟩,
       ⟨"Tc", 43, 98, some (97907212/1000000), none, none⟩,
       ⟨"Tc", 43, 99, some (98906251/1000000), none, none⟩] ∧
    (∀ row ∈ table_rows nist "Tc", row.isotopicComposition = none) ∧
    element_block nist "Tc" 1 1 0 true =
      some ([get_concentration 0 1 1 1 43 97],
        ["Warning: No abundance data for Tc. Using 100% isotope concentration..."]) := by
  have hrows : table_rows nist "Tc" =
      [⟨"Tc", 43, 97, some (96906367/1000000), none, none⟩,
       ⟨"Tc", 43, 98, some (97907212/1000000), none, none⟩,
       ⟨"Tc", 43, 99, some (98906251/1000000), none, none⟩] := by
    with_unfolding_all rfl
  have hnone : ∀ row ∈ table_rows nist "Tc", row.isotopicComposition = none := by
    rw [hrows]
    intro row hrow
    simp only [List.mem_cons, List.not_mem_nil, or_false] at hrow
    rcases hrow with h1 | h1 | h1 <;> subst h1 <;> rfl
  exact ⟨hrows, hnone,
    claim_C8 nist "Tc" 1 1 0 true ⟨"Tc", 43, 97, some (96906367/1000000), none, none⟩
      [⟨"Tc", 43, 98, some (97907212/1000000), none, none⟩,
       ⟨"Tc", 43, 99, some (98906251/1000000), none, none⟩] hrows hnone⟩

/-! ## Claim C2 -/

theorem calc_mm_eq (table : List Row) (amounts : List (String × String))
    (rs : List ResolvedElement) (h : resolve_amounts table amounts = .ok rs)
    (hne : ∀ r ∈ rs, r.isotopes ≠ []) (mass0 : ℚ) :
    calculate_molar_mass table amounts mass0 =
      .ok (mass0 + (rs.map (fun r =>
        (r.isotopes.headD ⟨0, 0, "", 0, 0, 0, none⟩).atomicWeight * r.fraction)).sum) := by
  induction amounts generalizing rs mass0 with
  | nil =>
    simp only [resolve_amounts, Except.ok.injEq] at h
    subst h
    simp [calculate_molar_mass]
  | cons hd tl ih =>
    obtain ⟨sym, fracStr⟩ := hd
    simp only [resolve_amounts] at h
    cases hcomp : retrieve_composition table sym with
    | error e => rw [hcomp] at h; simp at h
    | ok isos =>
      rw [hcomp] at h
      cases hfrac : pyFracVal fracStr with
      | error e => rw [hfrac] at h; simp at h
      | ok fraction =>
        rw [hfrac] at h
        cases hres : resolve_amounts table tl with
        | error e => rw [hres] at h; simp at h
        | ok rs2 =>
          rw [hres] at h
          simp only [Except.ok.injEq] at h
          subst h
          simp only [calculate_molar_mass, hcomp, hfrac]
          cases hisos : isos with
          | nil =>
            exfalso
            subst hisos
            exact (hne ⟨fraction, []⟩ (by simp)) rfl
          | cons iso0 irest =>
            subst hisos
            dsimp only
            rw [ih rs2 hres (fun r hr => hne r (by simp [hr])) (mass0 + iso0.atomicWeight * fraction)]
            simp only [List.map_cons, List.sum_cons, List.headD_cons]
            rw [Except.ok.injEq]
            ring

/-- C2 counterexample: the claim's purity-factor molar-mass rule fails on
the code.  For "C2H4 B0.2" the code computes 30.216 (raw
Σ weight × quantity, no clamping, no purity division), while the claimed
rule gives (12.011·2 + 1.008·4)/(1 − 0.2) + 10.81·0.2 = 37.2295. -/
theorem claim_C2_counterexample :
    (mkMixture nist "C2H4 B0.2" 1 none false).toOption.map (fun m => m.compoundMolarMass) =
      some (some (30216/1000)) ∧
    specClaimedMolarMass [(12011/1000, 2), (1008/1000, 4), (1081/100, 2/10)] = 372295/10000 ∧
    (30216/1000 : ℚ) ≠ 372295/10000 := by
  refine ⟨by with_unfolding_all rfl, by with_unfolding_all rfl, by norm_num⟩

/-- C2 (amended): `Mixture.calculate_molar_mass` sums
atomic weight × quantity with the raw quantity (absent quantity = 1), with
no clamping and no purity-factor division; `ConcentrationConvertor`'s
per-component mass instead sums atomic weight × max(quantity, 1) — dopant
quantities below 1 are clamped UP to 1 — again with no purity-factor
division; concretely "C2H4 B0.2" gets molar mass 30.216 and the lone dopant
component {B: 0.2} gets component mass 10.81. -/
theorem claim_C2 :
    (∀ (table : List Row) (amounts : List (String × String)) (rs : List ResolvedElement),
      resolve_amounts table amounts = .ok rs → (∀ r ∈ rs, r.isotopes ≠ []) →
      calculate_molar_mass table amounts 0 =
        .ok ((rs.map (fun r =>
          (r.isotopes.headD ⟨0, 0, "", 0, 0, 0, none⟩).atomicWeight * r.fraction)).sum)) ∧
    (∀ (table : List Row) (el : String) (num acc w : ℚ), element_weight table el = some w →
      component_mass table [(el, num)] acc = some (acc + w * (if 1 < num then num else 1))) ∧
    (mkMixture nist "C2H4 B0.2" 1 none false).toOption.map (fun m => m.compoundMolarMass) =
      some (some (30216/1000)) ∧
    component_mass nist [("B", 2/10)] 0 = some (1081/100) := by
  refine ⟨?_, ?_, by with_unfolding_all rfl, by with_unfolding_all rfl⟩
  · intro table amounts rs h hne
    rw [calc_mm_eq table amounts rs h hne 0]
    rw [zero_add]
  · intro table el num acc w hw
    simp [component_mass, hw]

/-- Witness for C2: the general molar-mass characterisation applied at the
single-isotope symbol Tc97, and the clamping conjunct at boron. -/
theorem claim_C2_witness :
    resolve_amounts nist [("Tc97", "")] =
      .ok [⟨1, [⟨43, 97, "43097", 96906367/1000000, 0, 1, none⟩]⟩] ∧
    (∀ r ∈ [(⟨1, [⟨43, 97, "43097", 96906367/1000000, 0, 1, none⟩]⟩ : ResolvedElement)],
      r.isotopes ≠ []) ∧
    calculate_molar_mass nist [("Tc97", "")] 0 =
      .ok (([(⟨1, [⟨43, 97, "43097", 96906367/1000000, 0, 1, none⟩]⟩ : ResolvedElement)].map
        (fun r => (r.isotopes.headD ⟨0, 0, "", 0, 0, 0, none⟩).atomicWeight * r.fraction)).sum) ∧
    element_weight nist "B" = some (1081/100) ∧
    component_mass nist [("B", 2/10)] 0 = some (0 + (1081/100) * (if 1 < (2/10 : ℚ) then (2/10 : ℚ) else 1)) := by
  refine ⟨by with_unfolding_all rfl, by simp, ?_, by with_unfolding_all rfl, ?_⟩
  · exact claim_C2.1 nist [("Tc97", "")] _ (by with_unfolding_all rfl) (by simp)
  · exact claim_C2.2.1 nist "B" (2/10) 0 (1081/100) (by with_unfolding_all rfl)

/-! ## Claim C6 -/

theorem fmtE6_shape (q : ℚ) : ∃ a b c : String, fmtE6 q = a ++ "." ++ b ++ "E" ++ c ∧ b.length = 6 := by
  refine ⟨(fmtE6parts q).1, (fmtE6parts q).2.1, (fmtE6parts q).2.2, rfl, ?_⟩
  unfold fmtE6parts
  by_cases h : q = 0
  · rw [if_pos h]
    rfl
  · rw [if_neg h]
    dsimp only
    simp [String.length, String.mk]

theorem fmt3f_shape (q : ℚ) : ∃ a b : String, fmt3f q = a ++ "." ++ b ∧ b.length = 3 := by
  refine ⟨(fmt3fparts q).1, (fmt3fparts q).2, rfl, ?_⟩
  unfold fmt3fparts
  dsimp only
  simp [String.length, String.mk]

theorem sort_key_digits (code : String) (h1 : code.toList ≠ [])
    (h2 : code.toList.all Char.isDigit = true) : sort_key code = digitsVal code.toList := by
  unfold sort_key
  cases hc : code.toList with
  | nil => exact absurd hc h1
  | cons c t =>
    rw [hc] at h2
    dsimp only
    rw [if_pos h2]

/-- C6: for every Material whose isotope codes are digit strings, the
rendered output contains exactly the isotopes whose concentration is at
least the material's threshold, sorted ascending by the numeric value of
the isotope code, with each concentration formatted in scientific notation
with six digits after the decimal point and the density with three digits
after the decimal point. -/
theorem claim_C6 (m : MaterialR)
    (hcodes : ∀ p ∈ m.isotopes, p.1.toList ≠ [] ∧ p.1.toList.all Char.isDigit = true) :
    renders_per_spec m := by
  refine ⟨?_, ?_, rfl, fun p _ => fmtE6_shape p.2, fmt3f_shape m.density⟩
  · intro p
    unfold rendered_pairs
    constructor
    · intro hp
      have hp2 := (List.perm_insertionSort _ _).mem_iff.mp hp
      have h3 := List.mem_filter.mp hp2
      exact ⟨h3.1, by simpa using h3.2⟩
    · intro hp
      apply (List.perm_insertionSort _ _).mem_iff.mpr
      exact List.mem_filter.mpr ⟨hp.1, by simpa using hp.2⟩
  · have hs := List.sorted_insertionSort (fun a b : String × ℚ => sort_key a.1 ≤ sort_key b.1)
      (m.isotopes.filter (fun p => m.threshold ≤ p.2))
    unfold rendered_pairs
    apply List.Pairwise.imp_of_mem ?_ hs
    intro a b ha hb hle
    have ha2 := List.mem_filter.mp ((List.perm_insertionSort _ _).mem_iff.mp ha)
    have hb2 := List.mem_filter.mp ((List.perm_insertionSort _ _).mem_iff.mp hb)
    have hka := sort_key_digits a.1 (hcodes a ha2.1).1 (hcodes a ha2.1).2
    have hkb := sort_key_digits b.1 (hcodes b hb2.1).1 (hcodes b hb2.1).2
    rw [hka, hkb] at hle
    exact hle

/-- Witness for C6 at a concrete two-isotope material. -/
theorem claim_C6_witness :
    (∀ p ∈ ([("8016", (1 : ℚ)/100), ("1001", 2/100)] : List (String × ℚ)),
      p.1.toList ≠ [] ∧ p.1.toList.all Char.isDigit = true) ∧
    renders_per_spec ⟨some "w", 1, 0, [("8016", 1/100), ("1001", 2/100)]⟩ := by
  have h : ∀ p ∈ ([("8016", (1 : ℚ)/100), ("1001", 2/100)] : List (String × ℚ)),
      p.1.toList ≠ [] ∧ p.1.toList.all Char.isDigit = true := by
    intro p hp
    simp only [List.mem_cons, List.not_mem_nil, or_false] at hp
    rcases hp with h1 | h1 <;> subst h1 <;> exact ⟨by decide, by decide⟩
  exact ⟨h, claim_C6 ⟨some "w", 1, 0, [("8016", 1/100), ("1001", 2/100)]⟩ h⟩

/-! ## Claim C7 — helper lemmas about the mixture grammar -/

theorem takeWhile_all_append (p : Char → Bool) (l1 l2 : List Char)
    (h : ∀ c ∈ l1, p c = true) :
    (l1 ++ l2).takeWhile p = l1 ++ l2.takeWhile p := by
  induction l1 with
  | nil => simp
  | cons c t ih =>
    simp only [List.cons_append, List.takeWhile_cons, h c (by simp), if_true]
    rw [ih (fun x hx => h x (by simp [hx]))]

theorem takeWhile_stop (p : Char → Bool) (c : Char) (l : List Char) (h : p c = false) :
    (c :: l).takeWhile p = [] := by
  simp [List.takeWhile_cons, h]

theorem takeWhile_all (p : Char → Bool) (l : List Char) (h : ∀ c ∈ l, p c = true) :
    l.takeWhile p = l := by
  have := takeWhile_all_append p l [] h
  simpa using this

theorem digitRunLen_append (ds : List Char) (c : Char) (l : List Char)
    (hds : ∀ x ∈ ds, x.isDigit = true) (hc : c.isDigit = false) :
    digitRunLen (ds ++ c :: l) = ds.length := by
  unfold digitRunLen
  rw [takeWhile_all_append _ _ _ hds, takeWhile_stop _ _ _ hc]
  simp

theorem digit_not_ws (c : Char) (h : c.isDigit = true) : c.isWhitespace = false := by
  by_contra hws
  simp only [Bool.not_eq_false] at hws
  simp only [Char.isWhitespace, Bool.or_eq_true, decide_eq_true_eq] at hws
  rcases hws with ((h1 | h1) | h1) | h1 <;> subst h1 <;> exact absurd h (by decide)

theorem firstSome_eq_none {α : Type} (L : List (Option α)) (h : ∀ o ∈ L, o = none) :
    firstSome L = none := by
  induction L with
  | nil => rfl
  | cons o t ih =>
    cases o with
    | none => exact ih (fun x hx => h x (by simp [hx]))
    | some a => exact absurd (h (some a) (by simp)) (by simp)

theorem firstSome_some_mem {α : Type} (L : List (Option α)) (a : α)
    (h : firstSome L = some a) : some a ∈ L := by
  induction L with
  | nil => simp [firstSome] at h
  | cons o t ih =>
    cases o with
    | none => exact List.mem_cons_of_mem _ (ih h)
    | some b =>
      simp only [firstSome, Option.some.injEq] at h
      subst h
      simp

theorem p1close_none (g r3 : List Char) (h : '%' ∉ r3) : p1close g r3 = none := by
  cases r3 with
  | nil => rfl
  | cons c rest =>
    have hc : ¬ c = '%' := fun hh => h (by simp [hh])
    simp [p1close, hc]

theorem p1opt_snd_sublist (r1 : List Char) (oc : List Char × List Char)
    (h : oc ∈ p1opt r1) : oc.2.Sublist r1 := by
  cases r1 with
  | nil =>
    simp [p1opt] at h
    rw [h]
  | cons c r =>
    by_cases hc : nonNl c = true
    · simp [p1opt, hc] at h
      rcases h with h | h <;> rw [h]
      exact List.sublist_cons_self c r
    · simp only [Bool.not_eq_true] at hc
      simp [p1opt, hc] at h
      rw [h]

theorem matchP1At_percent_mem (s : List Char) (g : List Char × List Char)
    (h : matchP1At s = some g) : '%' ∈ s := by
  unfold matchP1At at h
  have h1 := firstSome_some_mem _ _ h
  rw [List.mem_map] at h1
  obtain ⟨len1, _, hf1⟩ := h1
  have h2 := firstSome_some_mem _ _ hf1
  rw [List.mem_map] at h2
  obtain ⟨oc, hoc, hf2⟩ := h2
  have h3 := firstSome_some_mem _ _ hf2
  rw [List.mem_map] at h3
  obtain ⟨len2, _, hf3⟩ := h3
  by_contra hmem
  have hsub : (oc.2.drop len2).Sublist s :=
    ((List.drop_sublist len2 oc.2).trans (p1opt_snd_sublist _ _ hoc)).trans
      (List.drop_sublist len1 s)
  have hns : '%' ∉ oc.2.drop len2 := fun hm => hmem (hsub.subset hm)
  rw [p1close_none _ _ hns] at hf3
  exact Option.noConfusion hf3

theorem searchP1_none (s : List Char) (h : '%' ∉ s) : searchP1 s = none := by
  induction s with
  | nil => rfl
  | cons c rest ih =>
    have hm : matchP1At (c :: rest) = none := by
      cases hmt : matchP1At (c :: rest) with
      | none => rfl
      | some g => exact absurd (matchP1At_percent_mem _ _ hmt) h
    unfold searchP1
    rw [hm]
    exact ih (fun hmem => h (by simp [hmem]))

theorem matchP1At_none_no_digit (s : List Char) (h : digitRunLen s = 0) :
    matchP1At s = none := by
  unfold matchP1At
  rw [h]
  rfl

theorem searchP1_none_no_digit (s : List Char) (h : ∀ c ∈ s, c.isDigit = false) :
    searchP1 s = none := by
  induction s with
  | nil => rfl
  | cons c rest ih =>
    unfold searchP1
    rw [matchP1At_none_no_digit _ (by
      unfold digitRunLen
      rw [takeWhile_stop _ _ _ (h c (by simp))]
      rfl)]
    exact ih (fun x hx => h x (by simp [hx]))

theorem matchP2At_none_no_digit (s : List Char) (h : digitRunLen s = 0) :
    matchP2At s = none := by
  unfold matchP2At
  rw [h]
  rfl

theorem searchP2_none_no_digit (s : List Char) (h : ∀ c ∈ s, c.isDigit = false) :
    searchP2 s = none := by
  induction s with
  | nil => rfl
  | cons c rest ih =>
    unfold searchP2
    rw [matchP2At_none_no_digit _ (by
      unfold digitRunLen
      rw [takeWhile_stop _ _ _ (h c (by simp))]
      rfl)]
    exact ih (fun x hx => h x (by simp [hx]))

theorem pyFloat_digits (ds : List Char) (h1 : ds ≠ []) (h2 : ∀ c ∈ ds, c.isDigit = true) :
    pyFloat ds = some ((digitsVal ds : ℚ)) := by
  unfold pyFloat
  dsimp only
  rw [takeWhile_all _ _ h2, List.drop_length]
  rw [if_neg (by simp [List.isEmpty_iff, h1])]

theorem pyFloat_decimal (ds1 ds2 : List Char) (h1 : ds1 ≠ [])
    (hd1 : ∀ c ∈ ds1, c.isDigit = true) (hd2 : ∀ c ∈ ds2, c.isDigit = true) :
    pyFloat (ds1 ++ '.' :: ds2) =
      some ((digitsVal ds1 : ℚ) + (digitsVal ds2 : ℚ) / (10 : ℚ) ^ ds2.length) := by
  unfold pyFloat
  dsimp only
  rw [takeWhile_all_append _ _ _ hd1, takeWhile_stop _ _ _ (by decide), List.append_nil]
  rw [List.drop_left]
  dsimp only
  rw [if_pos rfl, if_pos ⟨List.all_eq_true.mpr hd2, Or.inl h1⟩]

theorem splitPlus_no_plus (s : List Char) (acc : List Char) (h : '+' ∉ s) :
    splitPlus s acc = [acc.reverse ++ s] := by
  induction s generalizing acc with
  | nil => simp [splitPlus]
  | cons c rest ih =>
    unfold splitPlus
    rw [if_neg (fun hc => h (by simp [hc]))]
    rw [ih _ (fun hm => h (by simp [hm]))]
    simp

theorem stripL_id (s : List Char) (h : ∀ c ∈ s, c.isWhitespace = false) : stripL s = s := by
  have hdrop : ∀ (l : List Char), (∀ c ∈ l, c.isWhitespace = false) →
      l.dropWhile Char.isWhitespace = l := by
    intro l hl
    cases l with
    | nil => rfl
    | cons c t => simp [List.dropWhile_cons, hl c (by simp)]
  unfold stripL
  rw [hdrop s h, hdrop _ (fun c hc => h c (List.mem_reverse.mp hc))]
  simp

theorem parse_mixtureL_single (s : List Char) (h : '+' ∉ s) :
    parse_mixtureL s = parse_part [] s := by
  unfold parse_mixtureL
  rw [splitPlus_no_plus s [] h]
  simp [List.foldlM]

theorem firstSome_cons_some {α : Type} (o : Option α) (t : List (Option α)) (a : α)
    (h : o = some a) : firstSome (o :: t) = some a := by
  subst h
  rfl

theorem firstSome_cons_none {α : Type} (o : Option α) (t : List (Option α))
    (h : o = none) : firstSome (o :: t) = firstSome t := by
  subst h
  rfl

theorem matchP1At_percent (ds f : List Char) (hds : ds ≠ []) (hdig : ∀ c ∈ ds, c.isDigit = true)
    (hf : f ≠ []) (hfp : '%' ∉ f) (hfn : ∀ c ∈ f, nonNl c = true) :
    matchP1At (ds ++ '%' :: f) = some (ds, f) := by
  have hrun : digitRunLen (ds ++ '%' :: f) = ds.length :=
    digitRunLen_append ds '%' f hdig (by decide)
  unfold matchP1At
  rw [hrun]
  obtain ⟨n, hn⟩ : ∃ n, ds.length = n + 1 := by
    cases ds with
    | nil => exact absurd rfl hds
    | cons c t => exact ⟨t.length, rfl⟩
  rw [hn, show downTo1 (n + 1) = (n + 1) :: downTo1 n from rfl, List.map_cons, ← hn]
  apply firstSome_cons_some
  simp only [List.take_left, List.drop_left]
  rw [show p1opt ('%' :: f) = [(['%'], f), ([], '%' :: f)] from rfl]
  rw [List.map_cons, List.map_cons, List.map_nil]
  rw [firstSome_cons_none]
  · apply firstSome_cons_some
    dsimp only
    have hdr : digitRunLen ('%' :: f) = 0 := by
      unfold digitRunLen
      rw [takeWhile_stop _ _ _ (by decide)]
      rfl
    rw [hdr, show downFrom 0 = [0] from rfl, List.map_cons, List.map_nil]
    apply firstSome_cons_some
    rw [List.take_zero, List.drop_zero, List.append_nil, List.append_nil]
    unfold p1close
    dsimp only
    rw [if_pos rfl]
    rw [takeWhile_all _ _ hfn]
    rw [if_neg hf]
  · dsimp only
    apply firstSome_eq_none
    intro o ho
    rw [List.mem_map] at ho
    obtain ⟨len2, _, heq⟩ := ho
    rw [← heq]
    exact p1close_none _ _ (fun hm => hfp ((List.drop_sublist _ _).subset hm))

theorem matchP2At_decimal (ds1 ds2 f : List Char) (h1 : ds1 ≠ []) (h2 : ds2 ≠ [])
    (hd1 : ∀ c ∈ ds1, c.isDigit = true) (hd2 : ∀ c ∈ ds2, c.isDigit = true)
    (hfd : ∀ c, f.head? = some c → c.isDigit = false) (hfn : ∀ c ∈ f, nonNl c = true) :
    matchP2At (ds1 ++ '.' :: (ds2 ++ f)) = some (ds1 ++ '.' :: ds2, f) := by
  have hrun : digitRunLen (ds1 ++ '.' :: (ds2 ++ f)) = ds1.length :=
    digitRunLen_append ds1 '.' _ hd1 (by decide)
  unfold matchP2At
  rw [hrun]
  obtain ⟨n, hn⟩ : ∃ n, ds1.length = n + 1 := by
    cases ds1 with
    | nil => exact absurd rfl h1
    | cons c t => exact ⟨t.length, rfl⟩
  rw [hn, show downTo1 (n + 1) = (n + 1) :: downTo1 n from rfl, List.map_cons, ← hn]
  apply firstSome_cons_some
  rw [List.drop_left]
  dsimp only
  rw [if_pos rfl]
  have hrun2 : digitRunLen (ds2 ++ f) = ds2.length := by
    cases f with
    | nil =>
      rw [List.append_nil]
      unfold digitRunLen
      rw [takeWhile_all _ _ hd2]
    | cons c ft => exact digitRunLen_append ds2 c ft hd2 (hfd c rfl)
  rw [hrun2]
  obtain ⟨m, hm⟩ : ∃ m, ds2.length = m + 1 := by
    cases ds2 with
    | nil => exact absurd rfl h2
    | cons c t => exact ⟨t.length, rfl⟩
  rw [hm, show downTo1 (m + 1) = (m + 1) :: downTo1 m from rfl, List.map_cons, ← hm]
  apply firstSome_cons_some
  rw [List.take_left, List.drop_left, List.take_left]
  rw [takeWhile_all _ _ hfn]

theorem not_ws_nonNl (c : Char) (h : c.isWhitespace = false) : nonNl c = true := by
  simp only [nonNl, bne_iff_ne, ne_eq]
  intro hh
  subst hh
  exact absurd h (by decide)

theorem digit_ne (c x : Char) (h : c.isDigit = true) (hx : x.isDigit = false) : c ≠ x := by
  intro hh
  subst hh
  rw [h] at hx
  exact Bool.noConfusion hx

theorem searchP1_of_match (s : List Char) (g : List Char × List Char) (hs : s ≠ [])
    (h : matchP1At s = some g) : searchP1 s = some g := by
  cases s with
  | nil => exact absurd rfl hs
  | cons c rest =>
    unfold searchP1
    rw [h]

theorem searchP2_of_match (s : List Char) (g : List Char × List Char) (hs : s ≠ [])
    (h : matchP2At s = some g) : searchP2 s = some g := by
  cases s with
  | nil => exact absurd rfl hs
  | cons c rest =>
    unfold searchP2
    rw [h]

theorem hasDDD_cons (c : Char) (l : List Char) (h : hasDigitDotDigit l = true) :
    hasDigitDotDigit (c :: l) = true := by
  cases l with
  | nil => simp [hasDigitDotDigit] at h
  | cons y t =>
    cases t with
    | nil => simp [hasDigitDotDigit] at h
    | cons z w =>
      unfold hasDigitDotDigit
      rw [h, Bool.or_true]

theorem hasDDD_decomp (pre : List Char) (a b : Char) (post : List Char)
    (ha : a.isDigit = true) (hb : b.isDigit = true) :
    hasDigitDotDigit (pre ++ a :: '.' :: b :: post) = true := by
  induction pre with
  | nil => simp [hasDigitDotDigit, ha, hb]
  | cons c t ih =>
    rw [List.cons_append]
    exact hasDDD_cons c _ ih

theorem mem_downTo1 (x n : ℕ) (h : x ∈ downTo1 n) : 1 ≤ x ∧ x ≤ n := by
  induction n with
  | zero => simp [downTo1] at h
  | succ m ih =>
    simp only [downTo1, List.mem_cons] at h
    rcases h with h | h
    · subst h
      exact ⟨Nat.succ_le_succ (Nat.zero_le m), Nat.le_refl _⟩
    · have h2 := ih h
      exact ⟨h2.1, Nat.le_succ_of_le h2.2⟩

theorem digitRun_pos_head (r : List Char) (h : 0 < digitRunLen r) :
    ∃ b r2, r = b :: r2 ∧ b.isDigit = true := by
  cases r with
  | nil => simp [digitRunLen] at h
  | cons b r2 =>
    cases hb : b.isDigit with
    | true => exact ⟨b, r2, rfl, hb⟩
    | false =>
      unfold digitRunLen at h
      rw [takeWhile_stop _ _ _ hb] at h
      simp at h

theorem take_digits (s : List Char) (len1 : ℕ) (hlen : len1 ≤ digitRunLen s) :
    ∀ c ∈ s.take len1, c.isDigit = true := by
  intro c hc
  have heq : s.take len1 = (s.takeWhile Char.isDigit).take len1 := by
    conv_lhs => rw [← List.takeWhile_append_dropWhile Char.isDigit s]
    rw [List.take_append_eq_append_take,
      show len1 - (s.takeWhile Char.isDigit).length = 0 from Nat.sub_eq_zero_of_le hlen]
    simp
  rw [heq] at hc
  exact List.mem_takeWhile_imp (List.take_subset _ _ hc)

theorem matchP2At_some_ddd (s : List Char) (g : List Char × List Char)
    (h : matchP2At s = some g) : hasDigitDotDigit s = true := by
  unfold matchP2At at h
  have h1 := firstSome_some_mem _ _ h
  rw [List.mem_map] at h1
  obtain ⟨len1, hlen1, heq⟩ := h1
  have hbounds := mem_downTo1 _ _ hlen1
  cases hdrop : s.drop len1 with
  | nil =>
    rw [hdrop] at heq
    exact absurd heq (by simp)
  | cons c r2 =>
    rw [hdrop] at heq
    dsimp only at heq
    by_cases hc : c = '.'
    case neg =>
      rw [if_neg hc] at heq
      exact absurd heq (by simp)
    case pos =>
    subst hc
    rw [if_pos rfl] at heq
    have hr2 : 0 < digitRunLen r2 := by
      by_contra hz
      push_neg at hz
      have hz0 : digitRunLen r2 = 0 := Nat.le_zero.mp hz
      rw [hz0] at heq
      simp [downTo1, firstSome] at heq
    obtain ⟨b, r3, hr2eq, hb⟩ := digitRun_pos_head r2 hr2
    have hlen1s : len1 ≤ s.length :=
      le_trans hbounds.2 (List.Sublist.length_le (List.takeWhile_sublist Char.isDigit))
    have htne : s.take len1 ≠ [] := by
      intro hnil
      have hlt : (s.take len1).length = len1 := by
        rw [List.length_take]
        exact min_eq_left hlen1s
      rw [hnil] at hlt
      simp at hlt
      omega
    have ha : ((s.take len1).getLast htne).isDigit = true :=
      take_digits s len1 hbounds.2 _ (List.getLast_mem htne)
    have hdecomp : s = (s.take len1).dropLast ++ ((s.take len1).getLast htne) :: '.' :: b :: r3 := by
      conv_lhs => rw [← List.take_append_drop len1 s]
      rw [hdrop, hr2eq]
      conv_lhs => rw [show s.take len1 = (s.take len1).dropLast ++ [(s.take len1).getLast htne]
        from (List.dropLast_append_getLast htne).symm]
      rw [List.append_assoc]
      rfl
    rw [hdecomp]
    exact hasDDD_decomp _ _ _ _ ha hb

theorem searchP2_none_of_no_ddd (s : List Char) (h : hasDigitDotDigit s = false) :
    searchP2 s = none := by
  induction s with
  | nil => rfl
  | cons c rest ih =>
    have hm : matchP2At (c :: rest) = none := by
      cases hmt : matchP2At (c :: rest) with
      | none => rfl
      | some g =>
        rw [matchP2At_some_ddd _ _ hmt] at h
        exact Bool.noConfusion h
    unfold searchP2
    rw [hm]
    apply ih
    cases hr : hasDigitDotDigit rest with
    | false => rfl
    | true =>
      rw [hasDDD_cons c rest hr] at h
      exact Bool.noConfusion h

theorem matchP1At_pdec (ds1 ds2 f : List Char) (h1 : ds1 ≠ []) (h2 : ds2 ≠ [])
    (hd1 : ∀ c ∈ ds1, c.isDigit = true) (hd2 : ∀ c ∈ ds2, c.isDigit = true)
    (hf : f ≠ []) (hfn : ∀ c ∈ f, nonNl c = true) :
    matchP1At (ds1 ++ '.' :: (ds2 ++ '%' :: f)) = some (ds1 ++ '.' :: ds2, f) := by
  have hrun : digitRunLen (ds1 ++ '.' :: (ds2 ++ '%' :: f)) = ds1.length :=
    digitRunLen_append ds1 '.' _ hd1 (by decide)
  unfold matchP1At
  rw [hrun]
  obtain ⟨n, hn⟩ : ∃ n, ds1.length = n + 1 := by
    cases ds1 with
    | nil => exact absurd rfl h1
    | cons c t => exact ⟨t.length, rfl⟩
  rw [hn, show downTo1 (n + 1) = (n + 1) :: downTo1 n from rfl, List.map_cons, ← hn]
  apply firstSome_cons_some
  simp only [List.take_left, List.drop_left]
  rw [show p1opt ('.' :: (ds2 ++ '%' :: f)) =
    [(['.'], ds2 ++ '%' :: f), ([], '.' :: (ds2 ++ '%' :: f))] from rfl]
  rw [List.map_cons]
  apply firstSome_cons_some
  dsimp only
  have hrun2 : digitRunLen (ds2 ++ '%' :: f) = ds2.length :=
    digitRunLen_append ds2 '%' f hd2 (by decide)
  rw [hrun2]
  obtain ⟨m, hm⟩ : ∃ m, ds2.length = m + 1 := by
    cases ds2 with
    | nil => exact absurd rfl h2
    | cons c t => exact ⟨t.length, rfl⟩
  rw [hm, show downFrom (m + 1) = (m + 1) :: downFrom m from rfl, List.map_cons, ← hm]
  apply firstSome_cons_some
  rw [List.take_left, List.drop_left]
  unfold p1close
  dsimp only
  rw [if_pos rfl, takeWhile_all _ _ hfn, if_neg hf]
  rw [List.append_assoc]
  rfl

/-- C7 (amended): a part of the form digits%formula or digits.digits%formula
maps the formula after the percent sign to the captured (possibly decimal)
fraction; a part beginning digits.digits followed by a non-digit formula
maps that trailing formula to the decimal fraction; a part containing no
percent sign and no digit-dot-digit substring is bare and maps to fraction
1.0; and in the spec-modelled consumer every fraction greater than 1 is
divided by 100 before use as a weight.  (The original claim's "a bare
formula gets implicit fraction 1.0" fails for bare parts containing a
decimal quantity — see the counterexample.) -/
theorem claim_C7 :
    (∀ ds f : List Char, ds ≠ [] → (∀ c ∈ ds, c.isDigit = true) → f ≠ [] →
      (∀ c ∈ f, c ≠ '%' ∧ c ≠ '+' ∧ c.isWhitespace = false) →
      parse_mixtureL (ds ++ '%' :: f) = some [(f, (digitsVal ds : ℚ))]) ∧
    (∀ ds1 ds2 f : List Char, ds1 ≠ [] → ds2 ≠ [] →
      (∀ c ∈ ds1, c.isDigit = true) → (∀ c ∈ ds2, c.isDigit = true) → f ≠ [] →
      (∀ c ∈ f, c ≠ '+' ∧ c.isWhitespace = false) →
      parse_mixtureL (ds1 ++ '.' :: (ds2 ++ '%' :: f)) =
        some [(f, (digitsVal ds1 : ℚ) + (digitsVal ds2 : ℚ) / (10 : ℚ) ^ ds2.length)]) ∧
    (∀ ds1 ds2 f : List Char, ds1 ≠ [] → ds2 ≠ [] →
      (∀ c ∈ ds1, c.isDigit = true) → (∀ c ∈ ds2, c.isDigit = true) →
      (∀ c ∈ f, c ≠ '%' ∧ c ≠ '+' ∧ c.isWhitespace = false) →
      (∀ c, f.head? = some c → c.isDigit = false) →
      parse_mixtureL (ds1 ++ '.' :: (ds2 ++ f)) =
        some [(f, (digitsVal ds1 : ℚ) + (digitsVal ds2 : ℚ) / (10 : ℚ) ^ ds2.length)]) ∧
    (∀ f : List Char, '%' ∉ f → hasDigitDotDigit f = false → '+' ∉ f → stripL f = f →
      parse_mixtureL f = some [(f, 1)]) ∧
    (∀ q : ℚ, 1 < q → normalize_compound_fraction q = q / 100) := by
  refine ⟨?_, ?_, ?_, ?_, ?_⟩
  · intro ds f hds hdig hf hfc
    have hplus : '+' ∉ ds ++ '%' :: f := by
      intro hm
      rw [List.mem_append, List.mem_cons] at hm
      rcases hm with hm | hm | hm
      · exact digit_ne _ _ (hdig _ hm) (by decide) rfl
      · exact absurd hm.symm (by decide)
      · exact (hfc _ hm).2.1 rfl
    rw [parse_mixtureL_single _ hplus]
    unfold parse_part
    rw [stripL_id]
    · dsimp only
      rw [searchP1_of_match _ (ds, f) (by simp [hds]) (matchP1At_percent ds f hds hdig hf
        (fun hm => (hfc _ hm).1 rfl) (fun c hc => not_ws_nonNl c (hfc c hc).2.2))]
      dsimp only
      rw [pyFloat_digits ds hds hdig]
      rfl
    · intro c hc
      rw [List.mem_append, List.mem_cons] at hc
      rcases hc with hc | hc | hc
      · exact digit_not_ws c (hdig c hc)
      · rw [hc]
        rfl
      · exact (hfc c hc).2.2
  · intro ds1 ds2 f h1 h2 hd1 hd2 hf hfc
    have hplus : '+' ∉ ds1 ++ '.' :: (ds2 ++ '%' :: f) := by
      intro hm
      rw [List.mem_append, List.mem_cons, List.mem_append, List.mem_cons] at hm
      rcases hm with hm | hm | hm | hm | hm
      · exact digit_ne _ _ (hd1 _ hm) (by decide) rfl
      · exact absurd hm.symm (by decide)
      · exact digit_ne _ _ (hd2 _ hm) (by decide) rfl
      · exact absurd hm.symm (by decide)
      · exact (hfc _ hm).1 rfl
    rw [parse_mixtureL_single _ hplus]
    unfold parse_part
    rw [stripL_id]
    · dsimp only
      rw [searchP1_of_match _ (ds1 ++ '.' :: ds2, f) (by simp [h1])
        (matchP1At_pdec ds1 ds2 f h1 h2 hd1 hd2 hf (fun c hc => not_ws_nonNl c (hfc c hc).2))]
      dsimp only
      rw [pyFloat_decimal ds1 ds2 h1 hd1 hd2]
      rfl
    · intro c hc
      rw [List.mem_append, List.mem_cons, List.mem_append, List.mem_cons] at hc
      rcases hc with hc | hc | hc | hc | hc
      · exact digit_not_ws c (hd1 c hc)
      · rw [hc]
        rfl
      · exact digit_not_ws c (hd2 c hc)
      · rw [hc]
        rfl
      · exact (hfc c hc).2
  · intro ds1 ds2 f h1 h2 hd1 hd2 hfc hfd
    have hplus : '+' ∉ ds1 ++ '.' :: (ds2 ++ f) := by
      intro hm
      rw [List.mem_append, List.mem_cons, List.mem_append] at hm
      rcases hm with hm | hm | hm | hm
      · exact digit_ne _ _ (hd1 _ hm) (by decide) rfl
      · exact absurd hm.symm (by decide)
      · exact digit_ne _ _ (hd2 _ hm) (by decide) rfl
      · exact (hfc _ hm).2.1 rfl
    have hperc : '%' ∉ ds1 ++ '.' :: (ds2 ++ f) := by
      intro hm
      rw [List.mem_append, List.mem_cons, List.mem_append] at hm
      rcases hm with hm | hm | hm | hm
      · exact digit_ne _ _ (hd1 _ hm) (by decide) rfl
      · exact absurd hm.symm (by decide)
      · exact digit_ne _ _ (hd2 _ hm) (by decide) rfl
      · exact (hfc _ hm).1 rfl
    rw [parse_mixtureL_single _ hplus]
    unfold parse_part
    rw [stripL_id]
    · dsimp only
      rw [searchP1_none _ hperc]
      rw [searchP2_of_match _ (ds1 ++ '.' :: ds2, f) (by simp [h1])
        (matchP2At_decimal ds1 ds2 f h1 h2 hd1 hd2 hfd
          (fun c hc => not_ws_nonNl c (hfc c hc).2.2))]
      dsimp only
      rw [pyFloat_decimal ds1 ds2 h1 hd1 hd2]
      rfl
    · intro c hc
      rw [List.mem_append, List.mem_cons, List.mem_append] at hc
      rcases hc with hc | hc | hc | hc
      · exact digit_not_ws c (hd1 c hc)
      · rw [hc]
        rfl
      · exact digit_not_ws c (hd2 c hc)
      · exact (hfc c hc).2.2
  · intro f hperc hddd hplus hstrip
    rw [parse_mixtureL_single _ hplus]
    unfold parse_part
    rw [hstrip]
    dsimp only
    rw [searchP1_none _ hperc, searchP2_none_of_no_ddd _ hddd]
    rfl
  · intro q hq
    simp [normalize_compound_fraction, if_pos hq]

/-- C7 counterexample: the bare part "Fe0.988" does not get the claimed
implicit fraction 1.0 — the search finds the decimal pattern mid-string, so
the parse records fraction 0.988 under the empty formula. -/
theorem claim_C7_counterexample :
    parse_mixtureL ['F', 'e', '0', '.', '9', '8', '8'] = some [([], (988/1000 : ℚ))] ∧
    parse_mixtureL ['F', 'e', '0', '.', '9', '8', '8'] ≠
      some [(['F', 'e', '0', '.', '9', '8', '8'], 1)] := by
  have h1 : parse_mixtureL ['F', 'e', '0', '.', '9', '8', '8'] =
      some [([], (988/1000 : ℚ))] := by
    with_unfolding_all rfl
  refine ⟨h1, ?_⟩
  rw [h1]
  intro hcontra
  simp at hcontra

/-- Witness for C7: the grammar conjuncts applied at "90%SiO2", "2.5%SiO2",
"0.9CH2" and the bare "H2O", and the percentage normalisation at 90. -/
theorem claim_C7_witness :
    parse_mixtureL (['9', '0'] ++ '%' :: ['S', 'i', 'O', '2']) =
      some [(['S', 'i', 'O', '2'], (digitsVal ['9', '0'] : ℚ))] ∧
    parse_mixtureL (['2'] ++ '.' :: (['5'] ++ '%' :: ['S', 'i', 'O', '2'])) =
      some [(['S', 'i', 'O', '2'],
        (digitsVal ['2'] : ℚ) + (digitsVal ['5'] : ℚ) / (10 : ℚ) ^ (['5'] : List Char).length)] ∧
    parse_mixtureL (['0'] ++ '.' :: (['9'] ++ ['C', 'H', '2'])) =
      some [(['C', 'H', '2'],
        (digitsVal ['0'] : ℚ) + (digitsVal ['9'] : ℚ) / (10 : ℚ) ^ (['9'] : List Char).length)] ∧
    parse_mixtureL ['H', '2', 'O'] = some [(['H', '2', 'O'], 1)] ∧
    (1 : ℚ) < 90 ∧ normalize_compound_fraction 90 = 90 / 100 := by
  refine ⟨?_, ?_, ?_, ?_, by norm_num, ?_⟩
  · exact claim_C7.1 ['9', '0'] ['S', 'i', 'O', '2'] (by decide) (by decide) (by decide) (by decide)
  · exact claim_C7.2.1 ['2'] ['5'] ['S', 'i', 'O', '2'] (by decide) (by decide) (by decide)
      (by decide) (by decide) (by decide)
  · refine claim_C7.2.2.1 ['0'] ['9'] ['C', 'H', '2'] (by decide) (by decide) (by decide)
      (by decide) (by decide) ?_
    intro c hc
    rw [show (['C', 'H', '2'] : List Char).head? = some 'C' from rfl, Option.some.injEq] at hc
    subst hc
    decide
  · exact claim_C7.2.2.2.1 ['H', '2', 'O'] (by decide) (by decide) (by decide) (by decide)
  · exact claim_C7.2.2.2.2 90 (by norm_num)
